import Mathlib

/-!
Verification of the finite-field Diffie-Hellman module (`src/dh.rs`) of the
`jyao1/ring` fork.

The file shallowly embeds the code of `src/dh.rs`.  The big-integer /
Montgomery arithmetic lives in `crate::arithmetic::bigint`, which is not part
of the given sources; those operations are modelled from the specification
(each such definition carries a doc comment starting with `Modelled from the
spec:`).  Machine bytes are modelled as `Nat` values; byte strings as
`List Nat`; Rust `Result`/`Option` as `Except`/`Option`.  A Rust panic
(slice-index failure or `.unwrap()` on an `Err`) is modelled by the dedicated
error value `DhError.panic`, kept distinct from explicitly returned errors.
-/

/-- Error vocabulary.  The constructors other than `panic` name the error
taxonomy of the specification (§7); `panic` models a Rust panic (an abort that
is *not* an explicitly returned error/result value).  `parse` stands for the
structurally-invalid-input rejections of Modulus/Element construction, whose
exact error value the spec leaves unnamed. -/
inductive DhError where
  | hexDecode
  | capacityExceeded
  | randomness
  | domainMismatch
  | bufferTooSmall
  | parse
  | panic
deriving DecidableEq

instance {ε α : Type} [DecidableEq ε] [DecidableEq α] : DecidableEq (Except ε α) := fun a b =>
  match a, b with
  | .ok x, .ok y =>
    if h : x = y then isTrue (by rw [h]) else isFalse (fun hh => by cases hh; exact h rfl)
  | .ok _, .error _ => isFalse (fun hh => Except.noConfusion hh)
  | .error _, .ok _ => isFalse (fun hh => Except.noConfusion hh)
  | .error x, .error y =>
    if h : x = y then isTrue (by rw [h]) else isFalse (fun hh => by cases hh; exact h rfl)

/-- `pub struct DhParam` of `src/dh.rs`: prime and generator as hex strings,
minimum secret length, and the parameter-set name. -/
structure DhParam where
  p : String
  g : String
  secret_len : Nat
  name : String

/-- `MAX_PUBLIC_KEY_LEN` of `src/dh.rs`. -/
def MAX_PUBLIC_KEY_LEN : Nat := 1024

/-- `MAX_SECRET_LEN` of `src/dh.rs`. -/
def MAX_SECRET_LEN : Nat := 64

/-- `DHPARAM_FFDHE2048` of `src/dh.rs` (Rust string-literal line continuations
`\` strip the newline and following whitespace, so `p` is one hex string). -/
def DHPARAM_FFDHE2048 : DhParam :=
  { p := "FFFFFFFFFFFFFFFFADF85458A2BB4A9AAFDC5620273D3CF1"
      ++ "D8B9C583CE2D3695A9E13641146433FBCC939DCE249B3EF9"
      ++ "7D2FE363630C75D8F681B202AEC4617AD3DF1ED5D5FD6561"
      ++ "2433F51F5F066ED0856365553DED1AF3B557135E7F57C935"
      ++ "984F0C70E0E68B77E2A689DAF3EFE8721DF158A136ADE735"
      ++ "30ACCA4F483A797ABC0AB182B324FB61D108A94BB2C8E3FB"
      ++ "B96ADAB760D7F4681D4F42A3DE394DF4AE56EDE76372BB19"
      ++ "0B07A7C8EE0A6D709E02FCE1CDF7E2ECC03404CD28342F61"
      ++ "9172FE9CE98583FF8E4F1232EEF28183C3FE3B1B4C6FAD73"
      ++ "3BB5FCBC2EC22005C58EF1837D1683B2C6F34A26C1B2EFFA"
      ++ "886B423861285C97FFFFFFFFFFFFFFFF",
    g := "02",
    secret_len := 225 / 8 + 2,
    name := "ffdhe2048" }

/-- `DHPARAM_FFDHE3072` of `src/dh.rs`. -/
def DHPARAM_FFDHE3072 : DhParam :=
  { p := "FFFFFFFFFFFFFFFFC90FDAA22168C234C4C6628B80DC1CD1"
      ++ "29024E088A67CC74020BBEA63B139B22514A08798E3404DD"
      ++ "EF9519B3CD3A431B302B0A6DF25F14374FE1356D6D51C245"
      ++ "E485B576625E7EC6F44C42E9A637ED6B0BFF5CB6F406B7ED"
      ++ "EE386BFB5A899FA5AE9F24117C4B1FE649286651ECE45B3D"
      ++ "C2007CB8A163BF0598DA48361C55D39A69163FA8FD24CF5F"
      ++ "83655D23DCA3AD961C62F356208552BB9ED529077096966D"
      ++ "670C354E4ABC9804F1746C08CA18217C32905E462E36CE3B"
      ++ "E39E772C180E86039B2783A2EC07A28FB5C55DF06F4C52C9"
      ++ "DE2BCBF6955817183995497CEA956AE515D2261898FA0510"
      ++ "15728E5A8AAAC42DAD33170D04507A33A85521ABDF1CBA64"
      ++ "ECFB850458DBEF0A8AEA71575D060C7DB3970F85A6E1E4C7"
      ++ "ABF5AE8CDB0933D71E8C94E04A25619DCEE3D2261AD2EE6B"
      ++ "F12FFA06D98A0864D87602733EC86A64521F2B18177B200C"
      ++ "BBE117577A615D6C770988C0BAD946E208E24FA074E5AB31"
      ++ "43DB5BFCE0FD108E4B82D120A93AD2CAFFFFFFFFFFFFFFFF",
    g := "02",
    secret_len := 275 / 8 + 2,
    name := "ffdhe3072" }

/-- `DHPARAM_FFDHE4096` of `src/dh.rs`. -/
def DHPARAM_FFDHE4096 : DhParam :=
  { p := "FFFFFFFFFFFFFFFFADF85458A2BB4A9AAFDC5620273D3CF1"
      ++ "D8B9C583CE2D3695A9E13641146433FBCC939DCE249B3EF9"
      ++ "7D2FE363630C75D8F681B202AEC4617AD3DF1ED5D5FD6561"
      ++ "2433F51F5F066ED0856365553DED1AF3B557135E7F57C935"
      ++ "984F0C70E0E68B77E2A689DAF3EFE8721DF158A136ADE735"
      ++ "30ACCA4F483A797ABC0AB182B324FB61D108A94BB2C8E3FB"
      ++ "B96ADAB760D7F4681D4F42A3DE394DF4AE56EDE76372BB19"
      ++ "0B07A7C8EE0A6D709E02FCE1CDF7E2ECC03404CD28342F61"
      ++ "9172FE9CE98583FF8E4F1232EEF28183C3FE3B1B4C6FAD73"
      ++ "3BB5FCBC2EC22005C58EF1837D1683B2C6F34A26C1B2EFFA"
      ++ "886B4238611FCFDCDE355B3B6519035BBC34F4DEF99C0238"
      ++ "61B46FC9D6E6C9077AD91D2691F7F7EE598CB0FAC186D91C"
      ++ "AEFE130985139270B4130C93BC437944F4FD4452E2D74DD3"
      ++ "64F2E21E71F54BFF5CAE82AB9C9DF69EE86D2BC522363A0D"
      ++ "ABC521979B0DEADA1DBF9A42D5C4484E0ABCD06BFA53DDEF"
      ++ "3C1B20EE3FD59D7C25E41D2B669E1EF16E6F52C3164DF4FB"
      ++ "7930E9E4E58857B6AC7D5F42D69F6D187763CF1D55034004"
      ++ "87F55BA57E31CC7A7135C886EFB4318AED6A1E012D9E6832"
      ++ "A907600A918130C46DC778F971AD0038092999A333CB8B7A"
      ++ "1A1DB93D7140003C2A4ECEA9F98D0ACC0A8291CDCEC97DCF"
      ++ "8EC9B55A7F88A46B4DB5A851F44182E1C68A007E5E655F6A"
      ++ "FFFFFFFFFFFFFFFF",
    g := "02",
    secret_len := 325 / 8 + 2,
    name := "ffdhe4096" }

/-- `DHPARAM_FFDHE6144` of `src/dh.rs`. -/
def DHPARAM_FFDHE6144 : DhParam :=
  { p := "FFFFFFFFFFFFFFFFADF85458A2BB4A9AAFDC5620273D3CF1"
      ++ "D8B9C583CE2D3695A9E13641146433FBCC939DCE249B3EF9"
      ++ "7D2FE363630C75D8F681B202AEC4617AD3DF1ED5D5FD6561"
      ++ "2433F51F5F066ED0856365553DED1AF3B557135E7F57C935"
      ++ "984F0C70E0E68B77E2A689DAF3EFE8721DF158A136ADE735"
      ++ "30ACCA4F483A797ABC0AB182B324FB61D108A94BB2C8E3FB"
      ++ "B96ADAB760D7F4681D4F42A3DE394DF4AE56EDE76372BB19"
      ++ "0B07A7C8EE0A6D709E02FCE1CDF7E2ECC03404CD28342F61"
      ++ "9172FE9CE98583FF8E4F1232EEF28183C3FE3B1B4C6FAD73"
      ++ "3BB5FCBC2EC22005C58EF1837D1683B2C6F34A26C1B2EFFA"
      ++ "886B4238611FCFDCDE355B3B6519035BBC34F4DEF99C0238"
      ++ "61B46FC9D6E6C9077AD91D2691F7F7EE598CB0FAC186D91C"
      ++ "AEFE130985139270B4130C93BC437944F4FD4452E2D74DD3"
      ++ "64F2E21E71F54BFF5CAE82AB9C9DF69EE86D2BC522363A0D"
      ++ "ABC521979B0DEADA1DBF9A42D5C4484E0ABCD06BFA53DDEF"
      ++ "3C1B20EE3FD59D7C25E41D2B669E1EF16E6F52C3164DF4FB"
      ++ "7930E9E4E58857B6AC7D5F42D69F6D187763CF1D55034004"
      ++ "87F55BA57E31CC7A7135C886EFB4318AED6A1E012D9E6832"
      ++ "A907600A918130C46DC778F971AD0038092999A333CB8B7A"
      ++ "1A1DB93D7140003C2A4ECEA9F98D0ACC0A8291CDCEC97DCF"
      ++ "8EC9B55A7F88A46B4DB5A851F44182E1C68A007E5E0DD902"
      ++ "0BFD64B645036C7A4E677D2C38532A3A23BA4442CAF53EA6"
      ++ "3BB454329B7624C8917BDD64B1C0FD4CB38E8C334C701C3A"
      ++ "CDAD0657FCCFEC719B1F5C3E4E46041F388147FB4CFDB477"
      ++ "A52471F7A9A96910B855322EDB6340D8A00EF092350511E3"
      ++ "0ABEC1FFF9E3A26E7FB29F8C183023C3587E38DA0077D9B4"
      ++ "763E4E4B94B2BBC194C6651E77CAF992EEAAC0232A281BF6"
      ++ "B3A739C1226116820AE8DB5847A67CBEF9C9091B462D538C"
      ++ "D72B03746AE77F5E62292C311562A846505DC82DB854338A"
      ++ "E49F5235C95B91178CCF2DD5CACEF403EC9D1810C6272B04"
      ++ "5B3B71F9DC6B80D63FDD4A8E9ADB1E6962A69526D43161C1"
      ++ "A41D570D7938DAD4A40E329CD0E40E65FFFFFFFFFFFFFFFF",
    g := "02",
    secret_len := 375 / 8 + 2,
    name := "ffdhe6144" }

/-- `DHPARAM_FFDHE8192` of `src/dh.rs`. -/
def DHPARAM_FFDHE8192 : DhParam :=
  { p := "FFFFFFFFFFFFFFFFADF85458A2BB4A9AAFDC5620273D3CF1"
      ++ "D8B9C583CE2D3695A9E13641146433FBCC939DCE249B3EF9"
      ++ "7D2FE363630C75D8F681B202AEC4617AD3DF1ED5D5FD6561"
      ++ "2433F51F5F066ED0856365553DED1AF3B557135E7F57C935"
      ++ "984F0C70E0E68B77E2A689DAF3EFE8721DF158A136ADE735"
      ++ "30ACCA4F483A797ABC0AB182B324FB61D108A94BB2C8E3FB"
      ++ "B96ADAB760D7F4681D4F42A3DE394DF4AE56EDE76372BB19"
      ++ "0B07A7C8EE0A6D709E02FCE1CDF7E2ECC03404CD28342F61"
      ++ "9172FE9CE98583FF8E4F1232EEF28183C3FE3B1B4C6FAD73"
      ++ "3BB5FCBC2EC22005C58EF1837D1683B2C6F34A26C1B2EFFA"
      ++ "886B4238611FCFDCDE355B3B6519035BBC34F4DEF99C0238"
      ++ "61B46FC9D6E6C9077AD91D2691F7F7EE598CB0FAC186D91C"
      ++ "AEFE130985139270B4130C93BC437944F4FD4452E2D74DD3"
      ++ "64F2E21E71F54BFF5CAE82AB9C9DF69EE86D2BC522363A0D"
      ++ "ABC521979B0DEADA1DBF9A42D5C4484E0ABCD06BFA53DDEF"
      ++ "3C1B20EE3FD59D7C25E41D2B669E1EF16E6F52C3164DF4FB"
      ++ "7930E9E4E58857B6AC7D5F42D69F6D187763CF1D55034004"
      ++ "87F55BA57E31CC7A7135C886EFB4318AED6A1E012D9E6832"
      ++ "A907600A918130C46DC778F971AD0038092999A333CB8B7A"
      ++ "1A1DB93D7140003C2A4ECEA9F98D0ACC0A8291CDCEC97DCF"
      ++ "8EC9B55A7F88A46B4DB5A851F44182E1C68A007E5E0DD902"
      ++ "0BFD64B645036C7A4E677D2C38532A3A23BA4442CAF53EA6"
      ++ "3BB454329B7624C8917BDD64B1C0FD4CB38E8C334C701C3A"
      ++ "CDAD0657FCCFEC719B1F5C3E4E46041F388147FB4CFDB477"
      ++ "A52471F7A9A96910B855322EDB6340D8A00EF092350511E3"
      ++ "0ABEC1FFF9E3A26E7FB29F8C183023C3587E38DA0077D9B4"
      ++ "763E4E4B94B2BBC194C6651E77CAF992EEAAC0232A281BF6"
      ++ "B3A739C1226116820AE8DB5847A67CBEF9C9091B462D538C"
      ++ "D72B03746AE77F5E62292C311562A846505DC82DB854338A"
      ++ "E49F5235C95B91178CCF2DD5CACEF403EC9D1810C6272B04"
      ++ "5B3B71F9DC6B80D63FDD4A8E9ADB1E6962A69526D43161C1"
      ++ "A41D570D7938DAD4A40E329CCFF46AAA36AD004CF600C838"
      ++ "1E425A31D951AE64FDB23FCEC9509D43687FEB69EDD1CC5E"
      ++ "0B8CC3BDF64B10EF86B63142A3AB8829555B2F747C932665"
      ++ "CB2C0F1CC01BD70229388839D2AF05E454504AC78B758282"
      ++ "2846C0BA35C35F5C59160CC046FD8251541FC68C9C86B022"
      ++ "BB7099876A460E7451A8A93109703FEE1C217E6C3826E52C"
      ++ "51AA691E0E423CFC99E9E31650C1217B624816CDAD9A95F9"
      ++ "D5B8019488D9C0A0A1FE3075A577E23183F81D4A3F2FA457"
      ++ "1EFC8CE0BA8A4FE8B6855DFE72B0A66EDED2FBABFBE58A30"
      ++ "FAFABE1C5D71A87E2F741EF8C1FE86FEA6BBFDE530677F0D"
      ++ "97D11D49F7A8443D0822E506A9F4614E011E2A94838FF88C"
      ++ "D68C8BB7C5C6424CFFFFFFFFFFFFFFFF",
    g := "02",
    secret_len := 400 / 8 + 2,
    name := "ffdhe8192" }

/-- `from_hex_digit` of `src/dh.rs`: byte value of one ASCII hex digit
(48..57 = `0`..`9`, 97..102 = `a`..`f`, 65..70 = `A`..`F`). -/
def from_hex_digit (d : Nat) : Except String Nat :=
  if 48 ≤ d ∧ d ≤ 57 then
    Except.ok (d - 48)
  else if 97 ≤ d ∧ d ≤ 102 then
    Except.ok (d - 97 + 10)
  else if 65 ≤ d ∧ d ≤ 70 then
    Except.ok (d - 65 + 10)
  else
    Except.error ("Invalid hex digit")

/-- The `chunks(2)` loop of `from_hex`: pairs of input bytes are decoded and
`(hi * 0x10) | lo` is pushed.  The one-element case models the loop body's
out-of-range index on a lone trailing byte; it is unreachable behind the
even-length guard of `from_hex`. -/
def fromHexPairs : List Nat → Except String (List Nat)
  | [] => Except.ok []
  | [_] => Except.error ("index out of range")
  | hi :: lo :: rest =>
    match from_hex_digit hi with
    | .error e => Except.error e
    | .ok h =>
      match from_hex_digit lo with
      | .error e => Except.error e
      | .ok l =>
        match fromHexPairs rest with
        | .error e => Except.error e
        | .ok r => Except.ok ((h * 16 ||| l) :: r)

/-- `from_hex` of `src/dh.rs`.  The Rust function reads `hex_str.as_bytes()`
and `hex_str.len()` (UTF-8 byte length); the input is therefore modelled as
the byte sequence of the string. -/
def from_hex (hex_str : List Nat) : Except String (List Nat) :=
  if hex_str.length % 2 ≠ 0 then
    Except.error ("Hex string does not have an even number of digits")
  else
    fromHexPairs hex_str

/-- `from_hex` applied to a Lean `String`, as `DhContext::new` applies it to
the static parameter strings.  On the ASCII hex/characters actually decoded,
code points coincide with UTF-8 bytes. -/
def fromHexStr (s : String) : Except String (List Nat) :=
  from_hex (s.data.map Char.toNat)

/-- Big-endian value of a byte sequence. -/
def beVal (l : List Nat) : Nat :=
  l.foldl (fun acc b => acc * 256 + b) 0

/-- Fuel-structured helper for `to_bytes_be` (fuel `n` always suffices). -/
def toBytesBEAux : Nat → Nat → List Nat
  | 0, _ => []
  | _ + 1, 0 => []
  | fuel + 1, n + 1 => toBytesBEAux fuel ((n + 1) / 256) ++ [(n + 1) % 256]

/-- Modelled from the spec: `to_bytes_be` of `bigint` (`publicKey` /
`computeSharedSecret` serialization, §4.5) converts the element out of the
Montgomery domain and serializes the represented value as a minimal-length
big-endian byte sequence, with no fixed-width left-padding. -/
def to_bytes_be (n : Nat) : List Nat :=
  toBytesBEAux n n

/-- Modelled from the spec (§4.2): `Modulus::from_be_bytes_with_bit_length` of
`bigint` interprets the bytes as a big-endian integer and fails on an empty
sequence, on input exceeding the 1024-byte capacity, or on an even value.
The bit-length component of the Rust return value is unused by `dh.rs` and is
omitted. -/
def modulusFromBEBytes (bytes : List Nat) : Except DhError Nat :=
  if bytes.length = 0 then
    Except.error DhError.parse
  else if MAX_PUBLIC_KEY_LEN < bytes.length then
    Except.error DhError.capacityExceeded
  else if beVal bytes % 2 = 0 then
    Except.error DhError.parse
  else
    Except.ok (beVal bytes)

/-- Modelled from the spec (§4.2): `Elem::from_be_bytes_padded` of `bigint`
maps a big-endian byte sequence to a residue modulo `p`, accepting exactly the
values parseable as `< p` (padding with leading zeroes; a value whose width
exceeds the modulus width is in particular `≥ p` and rejected).  Elements are
modelled by the residue they represent. -/
def elemFromBEBytesPadded (bytes : List Nat) (p : Nat) : Except DhError Nat :=
  if beVal bytes < p then
    Except.ok (beVal bytes)
  else
    Except.error DhError.parse

/-- Modelled from the spec (§4.3): `PrivateExponent::from_be_bytes_padded` of
`bigint` reduces/pads the byte sequence against the modulus via the
Element-construction path. -/
def privateExponentFromBEBytesPadded (bytes : List Nat) (p : Nat) : Except DhError Nat :=
  elemFromBEBytesPadded bytes p

/-- `into_encoded` of `src/dh.rs` is `elem_mul(m.oneRR().as_ref(), a, m)`.
Modelled from the spec: conversion into the Montgomery domain is a pure
transform preserving the represented residue (§4.4); since elements are
modelled by the residue they represent, the conversion is the identity. -/
def into_encoded (a : Nat) (_m : Nat) : Nat := a

/-- Modelled from the spec (§4.4): `elem_exp_consttime` of `bigint` computes
`base ^ exponent mod p`.  Its only failure is a modulus-identity mismatch
between `base` and `m`, which cannot arise here: `dh.rs` always passes
elements of the single modulus it holds, so the model returns `ok`. -/
def elem_exp_consttime (base : Nat) (a : Nat) (p : Nat) : Except DhError Nat :=
  Except.ok (base ^ a % p)

/-- `a[param.secret_len - 1] |= 1` of `DhContext::new`: force the
least-significant bit of the last byte of the buffer. -/
def forceLastOdd : List Nat → List Nat
  | [] => []
  | [b] => [b ||| 1]
  | b :: c :: rest => b :: forceLastOdd (c :: rest)

/-- `pub struct DhContext` of `src/dh.rs`: private exponent `a`, own public
element `ap` (Montgomery-encoded in the code, modelled by the residue it
represents), and the prime modulus `p`. -/
structure DhContext where
  a : Nat
  ap : Nat
  p : Nat
deriving DecidableEq

/-- `DhContext::new` of `src/dh.rs`.  `rand` is the byte sequence produced by
`rng.fill` into the `secret_len`-byte buffer; a length mismatch models the
randomness source failing to fill the buffer (`.ok()?`).  A `secret_len` of
zero would make `a[param.secret_len - 1]` panic, so it yields no context.  The
code calls `.unwrap()` on `from_hex(param.g)` (a panic on a malformed built-in
generator string rather than `None`); no claim distinguishes that case, and it
is unreachable for every parameter set in the file. -/
def DhContext.new (param : DhParam) (rand : List Nat) : Option DhContext :=
  if rand.length = param.secret_len ∧ 1 ≤ param.secret_len then
    match fromHexStr param.p with
    | .error _ => none
    | .ok pBytes =>
      match modulusFromBEBytes pBytes with
      | .error _ => none
      | .ok p =>
        match privateExponentFromBEBytesPadded (forceLastOdd rand) p with
        | .error _ => none
        | .ok a =>
          match fromHexStr param.g with
          | .error _ => none
          | .ok gBytes =>
            match elemFromBEBytesPadded gBytes p with
            | .error _ => none
            | .ok g =>
              match elem_exp_consttime (into_encoded g p) a p with
              | .error _ => none
              | .ok ap => some { a := a, ap := ap, p := p }
  else
    none

/-- `DhContext::compute_public_key` of `src/dh.rs`.  The Rust method takes
`&self` and a mutable buffer and returns the written slice; it is modelled by
explicit state passing: the result carries the context (rebuilt from the
fields the method reads), the updated buffer, and the returned slice.
`&mut buffer[0..len]` panics when the buffer is shorter than the serialized
public key; the method's return type has no error channel. -/
def DhContext.compute_public_key (ctx : DhContext) (buffer : List Nat) :
    Except DhError (DhContext × List Nat × List Nat) :=
  if (to_bytes_be ctx.ap).length ≤ buffer.length then
    Except.ok ({ a := ctx.a, ap := ctx.ap, p := ctx.p },
      to_bytes_be ctx.ap ++ buffer.drop (to_bytes_be ctx.ap).length, to_bytes_be ctx.ap)
  else
    Except.error DhError.panic

/-- `DhContext::compute_shared_key` of `src/dh.rs`.  Modelled with explicit
state passing like `compute_public_key`.  Both `Elem::from_be_bytes_padded`
and `elem_exp_consttime` results are `.unwrap()`ed in the code: a failure of
either is a panic, not a returned error. -/
def DhContext.compute_shared_key (ctx : DhContext) (peer_public_key : List Nat) :
    Except DhError (DhContext × List Nat) :=
  match elemFromBEBytesPadded peer_public_key ctx.p with
  | .error _ => Except.error DhError.panic
  | .ok v =>
    match elem_exp_consttime (into_encoded v ctx.p) ctx.a ctx.p with
    | .error _ => Except.error DhError.panic
    | .ok r => Except.ok ({ a := ctx.a, ap := ctx.ap, p := ctx.p }, to_bytes_be r)

/-- `agree_ephemeral` of `src/dh.rs`: consumes the context, computes the
shared key and hands it to the callback, returning the callback's value.  A
panic inside `compute_shared_key` propagates. -/
def agree_ephemeral {R : Type} (my_private_key : DhContext) (peer_public_key : List Nat)
    (kdf : List Nat → Option R) : Except DhError (Option R) :=
  match my_private_key.compute_shared_key peer_public_key with
  | .error e => Except.error e
  | .ok (_, secret_key) => Except.ok (kdf secret_key)

/-- A small parameter set (`p = 0x11 = 17`, `g = 2`, one-byte secret) used as
concrete input for witnesses: the real 2048-bit exponentiations do not reduce
inside the kernel, while every operation of the module is executable on this
set. -/
def tinyParam : DhParam :=
  { p := "11", g := "02", secret_len := 1, name := "tiny" }

/-- The context `DhContext.new tinyParam [4]` evaluates to: exponent
`4 ||| 1 = 5`, public element `2 ^ 5 % 17 = 15`. -/
def tinyCtx : DhContext :=
  { a := 5, ap := 15, p := 17 }

/-- The context `DhContext.new tinyParam [2]` evaluates to: exponent
`2 ||| 1 = 3`, public element `2 ^ 3 % 17 = 8`. -/
def tinyCtxB : DhContext :=
  { a := 3, ap := 8, p := 17 }

/-- The hex-digit predicate in the words of the specification: the byte is an
ASCII character in `[0-9a-fA-F]`.  Used to compare `from_hex` against its
specified contract. -/
def specIsHexDigit (c : Nat) : Bool :=
  (48 ≤ c && c ≤ 57) || (97 ≤ c && c ≤ 102) || (65 ≤ c && c ≤ 70)

/-- The value of a hex digit in the words of the specification
(case-insensitive); `0` on non-digits, where it is never used. -/
def specHexDigitVal (c : Nat) : Nat :=
  if 48 ≤ c ∧ c ≤ 57 then c - 48
  else if 97 ≤ c ∧ c ≤ 102 then c - 97 + 10
  else if 65 ≤ c ∧ c ≤ 70 then c - 65 + 10
  else 0

/-! ## Basic facts about the byte codecs -/

theorem beVal_append_singleton (xs : List Nat) (b : Nat) :
    beVal (xs ++ [b]) = beVal xs * 256 + b := by
  simp [beVal, List.foldl_append]

theorem beVal_toBytesBEAux : ∀ fuel n : Nat, n ≤ fuel → beVal (toBytesBEAux fuel n) = n := by
  intro fuel
  induction fuel with
  | zero =>
    intro n hn
    have h0 : n = 0 := Nat.le_zero.mp hn
    subst h0
    simp [toBytesBEAux, beVal]
  | succ fuel ih =>
    intro n hn
    match n with
    | 0 => simp [toBytesBEAux, beVal]
    | m + 1 =>
      have hq : (m + 1) / 256 ≤ fuel := by
        have := Nat.div_lt_self (Nat.succ_pos m) (by norm_num : 1 < 256)
        omega
      simp only [toBytesBEAux]
      rw [beVal_append_singleton, ih _ hq]
      have := Nat.div_add_mod (m + 1) 256
      omega

theorem beVal_to_bytes_be (n : Nat) : beVal (to_bytes_be n) = n :=
  beVal_toBytesBEAux n n (Nat.le_refl n)

theorem lt_pow_toBytesBEAux : ∀ fuel n : Nat, n ≤ fuel → n < 256 ^ (toBytesBEAux fuel n).length := by
  intro fuel
  induction fuel with
  | zero =>
    intro n hn
    have h0 : n = 0 := Nat.le_zero.mp hn
    subst h0
    simp [toBytesBEAux]
  | succ fuel ih =>
    intro n hn
    match n with
    | 0 => simp [toBytesBEAux]
    | m + 1 =>
      have hq : (m + 1) / 256 ≤ fuel := by
        have := Nat.div_lt_self (Nat.succ_pos m) (by norm_num : 1 < 256)
        omega
      have hrec := ih _ hq
      simp only [toBytesBEAux, List.length_append, List.length_cons, List.length_nil]
      have hdm := Nat.div_add_mod (m + 1) 256
      have hr : (m + 1) % 256 < 256 := Nat.mod_lt _ (by norm_num)
      calc m + 1 = 256 * ((m + 1) / 256) + (m + 1) % 256 := hdm.symm
        _ < 256 * ((m + 1) / 256 + 1) := by omega
        _ ≤ 256 * 256 ^ (toBytesBEAux fuel ((m + 1) / 256)).length := by
            exact Nat.mul_le_mul_left 256 (by omega)
        _ = 256 ^ ((toBytesBEAux fuel ((m + 1) / 256)).length + (0 + 1)) := by
            rw [Nat.pow_succ]
            ring
  -- the final exponent normalizes to the goal's `length + (0 + 1)`

theorem lt_pow_to_bytes_be (n : Nat) : n < 256 ^ (to_bytes_be n).length :=
  lt_pow_toBytesBEAux n n (Nat.le_refl n)

theorem pow256_eq_two_pow (L : Nat) : (256 : Nat) ^ L = 2 ^ (8 * L) := by
  rw [show (256 : Nat) = 2 ^ 8 by norm_num, ← pow_mul]

theorem forceLastOdd_length : ∀ l : List Nat, (forceLastOdd l).length = l.length
  | [] => rfl
  | [_] => rfl
  | _ :: c :: rest => by
    simp [forceLastOdd, forceLastOdd_length (c :: rest)]

theorem lor_one_mod_two (b : Nat) : (b ||| 1) % 2 = 1 := by
  have h : (b ||| 1).testBit 0 = true := by simp [Nat.testBit_or]
  rw [Nat.testBit_zero] at h
  exact of_decide_eq_true h

theorem foldl_forceLastOdd_mod_two :
    ∀ l : List Nat, l ≠ [] → ∀ acc : Nat,
      (List.foldl (fun acc b => acc * 256 + b) acc (forceLastOdd l)) % 2 = 1
  | [], h => absurd rfl h
  | [b], _ => by
    intro acc
    simp only [forceLastOdd, List.foldl_cons, List.foldl_nil]
    have := lor_one_mod_two b
    omega
  | b :: c :: rest, _ => by
    intro acc
    simp only [forceLastOdd, List.foldl_cons]
    exact foldl_forceLastOdd_mod_two (c :: rest) (by simp) (acc * 256 + b)

theorem beVal_forceLastOdd_odd (l : List Nat) (h : l ≠ []) : beVal (forceLastOdd l) % 2 = 1 :=
  foldl_forceLastOdd_mod_two l h 0

/-! ## Inversion lemmas for the embedded operations -/

theorem elemFromBEBytesPadded_ok {bytes : List Nat} {p v : Nat}
    (h : elemFromBEBytesPadded bytes p = Except.ok v) : v = beVal bytes ∧ beVal bytes < p := by
  unfold elemFromBEBytesPadded at h
  split at h
  next hlt =>
    cases h
    exact ⟨rfl, hlt⟩
  next => exact Except.noConfusion h

theorem elemFromBEBytesPadded_of_lt {bytes : List Nat} {p : Nat} (h : beVal bytes < p) :
    elemFromBEBytesPadded bytes p = Except.ok (beVal bytes) := by
  unfold elemFromBEBytesPadded
  rw [if_pos h]

theorem elemFromBEBytesPadded_of_ge {bytes : List Nat} {p : Nat} (h : p ≤ beVal bytes) :
    elemFromBEBytesPadded bytes p = Except.error DhError.parse := by
  unfold elemFromBEBytesPadded
  rw [if_neg (by omega)]

theorem modulusFromBEBytes_ok {bytes : List Nat} {p : Nat}
    (h : modulusFromBEBytes bytes = Except.ok p) : p = beVal bytes ∧ p % 2 = 1 := by
  unfold modulusFromBEBytes at h
  split at h
  next => exact Except.noConfusion h
  next =>
    split at h
    next => exact Except.noConfusion h
    next =>
      split at h
      next => exact Except.noConfusion h
      next hodd =>
        cases h
        exact ⟨rfl, by omega⟩

/-- Everything `DhContext.new param rand = some ctx` reveals about `ctx`:
the randomness filled the `secret_len`-byte buffer, the modulus is odd, the
private exponent is the big-endian value of the forced-odd buffer and lies
below the modulus, and the public element is `g ^ a mod p` for the decoded
generator `g < p`. -/
theorem DhContext.new_inv {param : DhParam} {rand : List Nat} {ctx : DhContext}
    (h : DhContext.new param rand = some ctx) :
    rand.length = param.secret_len ∧ 1 ≤ param.secret_len ∧
    ctx.p % 2 = 1 ∧
    ctx.a = beVal (forceLastOdd rand) ∧ ctx.a < ctx.p ∧
    (∃ pBytes, fromHexStr param.p = Except.ok pBytes ∧ ctx.p = beVal pBytes) ∧
    ∃ gBytes, fromHexStr param.g = Except.ok gBytes ∧ beVal gBytes < ctx.p ∧
      ctx.ap = beVal gBytes ^ ctx.a % ctx.p := by
  unfold DhContext.new at h
  split at h
  case isFalse => exact Option.noConfusion h
  case isTrue hc =>
    split at h
    next => exact Option.noConfusion h
    next pBytes hp =>
      split at h
      next => exact Option.noConfusion h
      next P hP =>
        split at h
        next => exact Option.noConfusion h
        next A hA =>
          split at h
          next => exact Option.noConfusion h
          next gBytes hg =>
            split at h
            next => exact Option.noConfusion h
            next G hG =>
              split at h
              next => exact Option.noConfusion h
              next ap hap =>
                cases h
                obtain ⟨hAval, hAlt⟩ := elemFromBEBytesPadded_ok hA
                obtain ⟨hPval, hPodd⟩ := modulusFromBEBytes_ok hP
                obtain ⟨hGval, hGlt⟩ := elemFromBEBytesPadded_ok hG
                have hapval : ap = G ^ A % P := by
                  unfold elem_exp_consttime into_encoded at hap
                  cases hap
                  rfl
                refine ⟨hc.1, hc.2, hPodd, hAval, ?_, ⟨pBytes, hp, hPval⟩,
                  gBytes, hg, ?_, ?_⟩
                · show A < P
                  omega
                · exact hGlt
                · show ap = beVal gBytes ^ A % P
                  rw [hapval, hGval]

/-! ## Behavior of `compute_public_key` and `compute_shared_key` -/

theorem compute_public_key_ok_inv {ctx : DhContext} {buffer : List Nat}
    {c : DhContext} {buf pk : List Nat}
    (h : ctx.compute_public_key buffer = Except.ok (c, buf, pk)) :
    pk = to_bytes_be ctx.ap ∧ c = ctx := by
  unfold DhContext.compute_public_key at h
  split at h
  next =>
    simp only [Except.ok.injEq, Prod.mk.injEq] at h
    exact ⟨h.2.2.symm, h.1.symm⟩
  next => exact Except.noConfusion h

theorem compute_shared_key_of_lt {ctx : DhContext} {peer : List Nat} (h : beVal peer < ctx.p) :
    ctx.compute_shared_key peer =
      Except.ok (ctx, to_bytes_be (beVal peer ^ ctx.a % ctx.p)) := by
  unfold DhContext.compute_shared_key
  rw [elemFromBEBytesPadded_of_lt h]
  rfl

theorem compute_shared_key_of_ge {ctx : DhContext} {peer : List Nat} (h : ctx.p ≤ beVal peer) :
    ctx.compute_shared_key peer = Except.error DhError.panic := by
  unfold DhContext.compute_shared_key
  rw [elemFromBEBytesPadded_of_ge h]

/-! ## Claim theorems -/

/-- **C1**: for any parameter set (in particular each of the five built-in
ones), two contexts successfully and independently constructed with it derive
the same shared-secret byte sequence: `A.compute_shared_key` applied to `B`'s
serialized public key (the slice returned by `B.compute_public_key`) succeeds
and yields the same bytes as `B.compute_shared_key` applied to `A`'s
serialized public key, with both contexts unchanged. -/
theorem dh_agreement (param : DhParam) (ra rb : List Nat) (A B : DhContext)
    (hA : DhContext.new param ra = some A) (hB : DhContext.new param rb = some B)
    (bufA bufB : List Nat) (A1 B1 : DhContext) (bufA1 bufB1 pkA pkB : List Nat)
    (hpkA : A.compute_public_key bufA = Except.ok (A1, bufA1, pkA))
    (hpkB : B.compute_public_key bufB = Except.ok (B1, bufB1, pkB)) :
    ∃ s, A.compute_shared_key pkB = Except.ok (A, s) ∧
         B.compute_shared_key pkA = Except.ok (B, s) := by
  obtain ⟨hpkAval, _⟩ := compute_public_key_ok_inv hpkA
  obtain ⟨hpkBval, _⟩ := compute_public_key_ok_inv hpkB
  obtain ⟨_, _, hPoddA, _, _, ⟨pbA, hpA, hPA⟩, gA, hgA, hgAlt, hapA⟩ := DhContext.new_inv hA
  obtain ⟨_, _, hPoddB, _, _, ⟨pbB, hpB, hPB⟩, gB, hgB, hgBlt, hapB⟩ := DhContext.new_inv hB
  have hpb : pbA = pbB := Except.ok.inj (hpA.symm.trans hpB)
  have hPeq : A.p = B.p := by rw [hPA, hPB, hpb]
  have hgeq : gA = gB := Except.ok.inj (hgA.symm.trans hgB)
  have hA0 : 0 < A.p := by omega
  have hB0 : 0 < B.p := by omega
  have hBap_lt : B.ap < A.p := by
    have : B.ap < B.p := by rw [hapB]; exact Nat.mod_lt _ hB0
    omega
  have hAap_lt : A.ap < B.p := by
    have : A.ap < A.p := by rw [hapA]; exact Nat.mod_lt _ hA0
    omega
  have hvB : beVal pkB = B.ap := by rw [hpkBval, beVal_to_bytes_be]
  have hvA : beVal pkA = A.ap := by rw [hpkAval, beVal_to_bytes_be]
  have hsA : A.compute_shared_key pkB = Except.ok (A, to_bytes_be (B.ap ^ A.a % A.p)) := by
    have := compute_shared_key_of_lt (show beVal pkB < A.p by omega)
    rwa [hvB] at this
  have hsB : B.compute_shared_key pkA = Except.ok (B, to_bytes_be (A.ap ^ B.a % B.p)) := by
    have := compute_shared_key_of_lt (show beVal pkA < B.p by omega)
    rwa [hvA] at this
  have key : B.ap ^ A.a % A.p = A.ap ^ B.a % B.p := by
    rw [hapA, hapB, hgeq, ← hPeq]
    calc (beVal gB ^ B.a % A.p) ^ A.a % A.p
        = (beVal gB ^ B.a) ^ A.a % A.p := (Nat.pow_mod _ _ _).symm
      _ = beVal gB ^ (B.a * A.a) % A.p := by rw [← pow_mul]
      _ = beVal gB ^ (A.a * B.a) % A.p := by rw [Nat.mul_comm]
      _ = (beVal gB ^ A.a) ^ B.a % A.p := by rw [pow_mul]
      _ = (beVal gB ^ A.a % A.p) ^ B.a % A.p := Nat.pow_mod _ _ _
  exact ⟨to_bytes_be (B.ap ^ A.a % A.p), hsA, by rw [hsB, key]⟩

/-- Witness for `dh_agreement` on the small parameter set: both parties derive
the byte sequence `2 ^ (5 * 3) mod 17 = 9`. -/
theorem dh_agreement_witness :
    ∃ s, DhContext.compute_shared_key tinyCtx [8] = Except.ok (tinyCtx, s) ∧
         DhContext.compute_shared_key tinyCtxB [15] = Except.ok (tinyCtxB, s) :=
  dh_agreement tinyParam [4] [2] tinyCtx tinyCtxB (by decide) (by decide)
    [0] [0] tinyCtx tinyCtxB [15] [8] [15] [8] (by decide) (by decide)

/-- **C2, counterexample**: the claim gives `secret_len = 29` for
`ffdhe2048`, but the code computes `225 / 8 + 2 = 30` (Rust integer
division), so the claimed value is wrong (likewise 43 vs 42 for ffdhe4096 and
49 vs 48 for ffdhe6144). -/
theorem secret_len_claim_counterexample :
    DHPARAM_FFDHE2048.secret_len = 30 ∧ ¬ DHPARAM_FFDHE2048.secret_len = 29 := by
  decide

/-- **C2, amended**: the five built-in parameter sets have `secret_len`
`30, 36, 42, 48, 52` (the code computes `⌊bits/8⌋ + 2` with truncating
integer division: `225/8+2`, `275/8+2`, `325/8+2`, `375/8+2`, `400/8+2`). -/
theorem builtin_secret_len :
    DHPARAM_FFDHE2048.secret_len = 30 ∧ DHPARAM_FFDHE3072.secret_len = 36 ∧
    DHPARAM_FFDHE4096.secret_len = 42 ∧ DHPARAM_FFDHE6144.secret_len = 48 ∧
    DHPARAM_FFDHE8192.secret_len = 52 := by
  decide

/-- **C3, counterexample**: on a context with a one-byte public key and an
empty caller buffer, `compute_public_key` panics (the `&mut buffer[0..len]`
slice-index failure, modelled by `DhError.panic`); it does not produce a
`BufferTooSmallError` result — its Rust return type `&[u8]` has no error
channel at all. -/
theorem compute_public_key_claim_counterexample :
    DhContext.new tinyParam [4] = some tinyCtx ∧
    ([] : List Nat).length < (to_bytes_be tinyCtx.ap).length ∧
    DhContext.compute_public_key tinyCtx [] = Except.error DhError.panic ∧
    DhContext.compute_public_key tinyCtx [] ≠ Except.error DhError.bufferTooSmall := by
  decide

/-- **C3, amended**: when the caller buffer is smaller than the serialized
public key the call panics (Rust slice-index failure) instead of returning an
explicit `BufferTooSmallError`; when the buffer is large enough it writes the
serialized value into the buffer prefix, returns that slice, and leaves the
context state unchanged. -/
theorem compute_public_key_behavior (ctx : DhContext) (buffer : List Nat) :
    (buffer.length < (to_bytes_be ctx.ap).length →
      ctx.compute_public_key buffer = Except.error DhError.panic) ∧
    ((to_bytes_be ctx.ap).length ≤ buffer.length →
      ctx.compute_public_key buffer =
        Except.ok (ctx, to_bytes_be ctx.ap ++ buffer.drop (to_bytes_be ctx.ap).length,
          to_bytes_be ctx.ap)) := by
  constructor
  · intro hlt
    unfold DhContext.compute_public_key
    rw [if_neg (by omega)]
  · intro hle
    unfold DhContext.compute_public_key
    rw [if_pos hle]

/-- Witness for `compute_public_key_behavior`: both branches evaluated on the
small context — the empty buffer panics, a two-byte buffer receives the
one-byte public key `[15]` with the second buffer byte untouched. -/
theorem compute_public_key_behavior_witness :
    DhContext.compute_public_key tinyCtx [] = Except.error DhError.panic ∧
    DhContext.compute_public_key tinyCtx [0, 0] = Except.ok (tinyCtx, [15, 0], [15]) :=
  ⟨(compute_public_key_behavior tinyCtx []).1 (by decide),
   (compute_public_key_behavior tinyCtx [0, 0]).2 (by decide)⟩

/-- **C4, counterexample**: a peer key whose big-endian value (`256`) exceeds
the one-byte modulus width of the small context makes `compute_shared_key`
panic (the `.unwrap()` on the failed `Elem::from_be_bytes_padded`, modelled by
`DhError.panic`); it does not return an explicit error value such as the
spec's `CapacityExceededError`, and a panic is not a returned result. -/
theorem compute_shared_key_oversized_counterexample :
    DhContext.new tinyParam [4] = some tinyCtx ∧
    2 ^ (8 * (to_bytes_be tinyCtx.p).length) ≤ beVal [1, 0] ∧
    DhContext.compute_shared_key tinyCtx [1, 0] = Except.error DhError.panic ∧
    DhContext.compute_shared_key tinyCtx [1, 0] ≠ Except.error DhError.capacityExceeded ∧
    DhContext.compute_shared_key tinyCtx [1, 0] ≠ Except.error DhError.parse := by
  decide

/-- **C4, amended**: for every peer byte sequence whose big-endian value
exceeds the modulus width, `compute_shared_key` panics (unwrap on the parse
failure) rather than returning a value; in particular it never truncates the
input and never returns a degraded `ok` result. -/
theorem compute_shared_key_oversized_panics (ctx : DhContext) (peer : List Nat)
    (h : 2 ^ (8 * (to_bytes_be ctx.p).length) ≤ beVal peer) :
    ctx.compute_shared_key peer = Except.error DhError.panic := by
  apply compute_shared_key_of_ge
  have h1 : ctx.p < 256 ^ (to_bytes_be ctx.p).length := lt_pow_to_bytes_be ctx.p
  have h2 : (256 : Nat) ^ (to_bytes_be ctx.p).length =
      2 ^ (8 * (to_bytes_be ctx.p).length) := pow256_eq_two_pow _
  omega

/-- Witness for `compute_shared_key_oversized_panics` at the small context and
the two-byte peer key `[1, 0]` (value `256 ≥ 2^8`). -/
theorem compute_shared_key_oversized_panics_witness :
    DhContext.compute_shared_key tinyCtx [1, 0] = Except.error DhError.panic :=
  compute_shared_key_oversized_panics tinyCtx [1, 0] (by decide)

/-- **C5**: for every successful construction, the generated private-exponent
byte sequence (the random bytes with the last byte ORed with 1) has length
exactly `secret_len`, the context's private exponent is its big-endian value,
and that value is odd (least-significant bit 1).  The byte-sequence form of
the exponent is the `secret_len`-byte buffer the code generates; the exponent
is never re-serialized elsewhere in the module. -/
theorem private_exponent_shape (param : DhParam) (rand : List Nat) (ctx : DhContext)
    (h : DhContext.new param rand = some ctx) :
    (forceLastOdd rand).length = param.secret_len ∧
    ctx.a = beVal (forceLastOdd rand) ∧ ctx.a % 2 = 1 := by
  obtain ⟨hlen, hpos, _, ha, _, _, _⟩ := DhContext.new_inv h
  have hne : rand ≠ [] := by
    intro he
    rw [he] at hlen
    simp at hlen
    omega
  refine ⟨?_, ha, ?_⟩
  · rw [forceLastOdd_length]; exact hlen
  · rw [ha]; exact beVal_forceLastOdd_odd rand hne

/-- Witness for `private_exponent_shape`: the small construction from random
byte `4` yields the one-byte exponent sequence `[5]`, value `5`, odd. -/
theorem private_exponent_shape_witness :
    (forceLastOdd [4]).length = tinyParam.secret_len ∧
    tinyCtx.a = beVal (forceLastOdd [4]) ∧ tinyCtx.a % 2 = 1 :=
  private_exponent_shape tinyParam [4] tinyCtx (by decide)

/-- **C7**: on any successfully constructed context, a peer public value equal
to `0` (any all-zero byte sequence) is accepted without a range error:
`compute_shared_key` succeeds and returns the serialization of
`0 ^ a mod p`, which is `0` (the all-zero-equivalent value; its minimal
big-endian serialization is the empty byte sequence). -/
theorem compute_shared_key_zero_peer (param : DhParam) (rand : List Nat) (ctx : DhContext)
    (h : DhContext.new param rand = some ctx) (peer : List Nat) (hz : beVal peer = 0) :
    ctx.compute_shared_key peer = Except.ok (ctx, to_bytes_be (0 ^ ctx.a % ctx.p)) ∧
    0 ^ ctx.a % ctx.p = 0 := by
  obtain ⟨hlen, hpos, hpodd, ha, _, _, _⟩ := DhContext.new_inv h
  have hp0 : 0 < ctx.p := by omega
  have hne : rand ≠ [] := by
    intro he
    rw [he] at hlen
    simp at hlen
    omega
  have haodd : ctx.a % 2 = 1 := by rw [ha]; exact beVal_forceLastOdd_odd rand hne
  have hzero : (0 : Nat) ^ ctx.a = 0 := zero_pow (by omega)
  constructor
  · have := compute_shared_key_of_lt (show beVal peer < ctx.p by omega)
    rwa [hz] at this
  · rw [hzero]
    exact Nat.zero_mod _

/-- Witness for `compute_shared_key_zero_peer`: the all-zero peer `[0]` on the
small context yields `ok` with the empty serialization of `0`. -/
theorem compute_shared_key_zero_peer_witness :
    DhContext.compute_shared_key tinyCtx [0] =
      Except.ok (tinyCtx, to_bytes_be (0 ^ tinyCtx.a % tinyCtx.p)) ∧
    0 ^ tinyCtx.a % tinyCtx.p = 0 :=
  compute_shared_key_zero_peer tinyParam [4] tinyCtx (by decide) [0] (by decide)

/-- **C8, counterexample**: against the claim, when the shared-secret
computation fails `agree_ephemeral` does not return `None`: the panic inside
`compute_shared_key` (the `.unwrap()` on the oversized peer key `[1, 0]`)
propagates, so the call aborts instead of returning `None`, whatever the
callback would return. -/
theorem agree_ephemeral_claim_counterexample :
    (DhContext.compute_shared_key tinyCtx [1, 0]).isOk = false ∧
    agree_ephemeral tinyCtx [1, 0] (fun _ => some 0) ≠
      Except.ok (none : Option Nat) ∧
    agree_ephemeral tinyCtx [1, 0] (fun _ => some 0) = Except.error DhError.panic := by
  decide

/-- **C8, amended**: when `compute_shared_key` succeeds, `agree_ephemeral`
applies the caller's `kdf` once to exactly the produced shared-secret bytes
and returns its value unchanged (hence `None` exactly when the callback
returns `None`); when the shared-secret computation fails, the panic
propagates out of `agree_ephemeral` instead of a `None` return. -/
theorem agree_ephemeral_behavior {R : Type} (ctx : DhContext) (peer : List Nat)
    (kdf : List Nat → Option R) :
    (∀ c s, ctx.compute_shared_key peer = Except.ok (c, s) →
      agree_ephemeral ctx peer kdf = Except.ok (kdf s)) ∧
    (∀ e, ctx.compute_shared_key peer = Except.error e →
      agree_ephemeral ctx peer kdf = Except.error e) := by
  constructor
  · intro c s h
    unfold agree_ephemeral
    rw [h]
  · intro e h
    unfold agree_ephemeral
    rw [h]

/-- Witness for `agree_ephemeral_behavior`: on the small context the identity
callback receives the shared bytes `[9]` and its value is passed through; on
the oversized peer key the panic propagates. -/
theorem agree_ephemeral_behavior_witness :
    agree_ephemeral tinyCtx [8] (fun s => some s) = Except.ok (some [9]) ∧
    agree_ephemeral tinyCtx [1, 0] (fun s => some s) = Except.error DhError.panic :=
  ⟨(agree_ephemeral_behavior tinyCtx [8] (fun s => some s)).1 tinyCtx [9] (by decide),
   (agree_ephemeral_behavior tinyCtx [1, 0] (fun s => some s)).2 DhError.panic (by decide)⟩

/-- **C10**: `compute_shared_key` is deterministic and read-only.  The Rust
method takes `&self` with no interior mutability; the embedding threads the
context explicitly, and for every successful call the returned context has
the private exponent, public element and modulus of the input context
unchanged, and repeating the call on the returned context yields the
identical byte sequence. -/
theorem compute_shared_key_deterministic_readonly (ctx : DhContext) (peer : List Nat)
    (ctx1 : DhContext) (s1 : List Nat)
    (h : ctx.compute_shared_key peer = Except.ok (ctx1, s1)) :
    ctx1.a = ctx.a ∧ ctx1.ap = ctx.ap ∧ ctx1.p = ctx.p ∧
    ctx1.compute_shared_key peer = Except.ok (ctx1, s1) := by
  have hctx : ctx1 = ctx := by
    unfold DhContext.compute_shared_key at h
    split at h
    next => exact Except.noConfusion h
    next =>
      simp only [elem_exp_consttime, Except.ok.injEq, Prod.mk.injEq] at h
      exact h.1.symm
  subst hctx
  exact ⟨rfl, rfl, rfl, h⟩

/-- Witness for `compute_shared_key_deterministic_readonly` on the small
context and peer `[8]`: the result is `[9]` and the call repeats
unchanged. -/
theorem compute_shared_key_deterministic_readonly_witness :
    tinyCtx.a = tinyCtx.a ∧ tinyCtx.ap = tinyCtx.ap ∧ tinyCtx.p = tinyCtx.p ∧
    DhContext.compute_shared_key tinyCtx [8] = Except.ok (tinyCtx, [9]) :=
  compute_shared_key_deterministic_readonly tinyCtx [8] tinyCtx [9] (by decide)

/-! ## Hex decoding (C6) -/

theorem from_hex_digit_ok {d v : Nat} (h : from_hex_digit d = Except.ok v) :
    specIsHexDigit d = true ∧ v = specHexDigitVal d ∧ v < 16 := by
  unfold from_hex_digit at h
  unfold specIsHexDigit specHexDigitVal
  split at h
  next h1 =>
    cases h
    refine ⟨by simp; omega, by rw [if_pos h1], by omega⟩
  next h1 =>
    split at h
    next h2 =>
      cases h
      refine ⟨by simp; omega, ?_, by omega⟩
      rw [if_neg h1, if_pos h2]
    next h2 =>
      split at h
      next h3 =>
        cases h
        refine ⟨by simp; omega, ?_, by omega⟩
        rw [if_neg h1, if_neg h2, if_pos h3]
      next h3 => exact Except.noConfusion h

theorem from_hex_digit_of_spec {d : Nat} (h : specIsHexDigit d = true) :
    from_hex_digit d = Except.ok (specHexDigitVal d) := by
  have h' : ((48 ≤ d ∧ d ≤ 57) ∨ (97 ≤ d ∧ d ≤ 102)) ∨ (65 ≤ d ∧ d ≤ 70) := by
    simpa [specIsHexDigit, Bool.or_eq_true, Bool.and_eq_true, decide_eq_true_eq] using h
  unfold from_hex_digit specHexDigitVal
  rcases h' with (h1 | h1) | h1 <;> split_ifs <;> rfl

theorem mul16_lor_eq_add {h l : Nat} (hl : l < 16) : h * 16 ||| l = 16 * h + l := by
  have h16 : l < 2 ^ 4 := by simpa using hl
  have hor := Nat.mul_add_lt_is_or h16 h
  have e : (2 : Nat) ^ 4 = 16 := by norm_num
  rw [e] at hor
  rw [Nat.mul_comm h 16]
  exact hor.symm

/-- Induction on a list two elements at a time, matching the `chunks(2)`
traversal of `from_hex`. -/
theorem pairInd {P : List Nat → Prop} (h0 : P []) (h1 : ∀ d, P [d])
    (h2 : ∀ a b l, P l → P (a :: b :: l)) : ∀ l, P l
  | [] => h0
  | [d] => h1 d
  | a :: b :: l => h2 a b l (pairInd h0 h1 h2 l)

theorem fromHexPairs_spec : ∀ s : List Nat,
    ((fromHexPairs s).isOk = true ↔ s.length % 2 = 0 ∧ ∀ c ∈ s, specIsHexDigit c = true) ∧
    ∀ bs, fromHexPairs s = Except.ok bs →
      bs.length = s.length / 2 ∧
      ∀ i, i < bs.length →
        bs.getD i 0 = 16 * specHexDigitVal (s.getD (2 * i) 0)
          + specHexDigitVal (s.getD (2 * i + 1) 0) := by
  refine pairInd ?_ ?_ ?_
  · constructor
    · simp [fromHexPairs, Except.isOk, Except.toBool]
    · intro bs h
      unfold fromHexPairs at h
      cases h
      constructor <;> simp
  · intro d
    constructor
    · constructor
      · intro hok
        exact absurd hok (by simp [fromHexPairs, Except.isOk, Except.toBool])
      · rintro ⟨heven, -⟩
        simp at heven
    · intro bs h
      simp [fromHexPairs] at h
  · intro a b l IH
    rcases ha : from_hex_digit a with eA | vA
    · constructor
      · constructor
        · intro hok
          exact absurd hok (by simp [fromHexPairs, ha, Except.isOk, Except.toBool])
        · rintro ⟨-, hall⟩
          have hsa : specIsHexDigit a = true := hall a (by simp)
          exact Except.noConfusion ((from_hex_digit_of_spec hsa).symm.trans ha)
      · intro bs h
        simp [fromHexPairs, ha] at h
    · rcases hb : from_hex_digit b with eB | vB
      · constructor
        · constructor
          · intro hok
            exact absurd hok (by simp [fromHexPairs, ha, hb, Except.isOk, Except.toBool])
          · rintro ⟨-, hall⟩
            have hsb : specIsHexDigit b = true := hall b (by simp)
            exact Except.noConfusion ((from_hex_digit_of_spec hsb).symm.trans hb)
        · intro bs h
          simp [fromHexPairs, ha, hb] at h
      · rcases hl : fromHexPairs l with eL | r
        · constructor
          · constructor
            · intro hok
              exact absurd hok (by simp [fromHexPairs, ha, hb, hl, Except.isOk, Except.toBool])
            · rintro ⟨heven, hall⟩
              have hlok : (fromHexPairs l).isOk = true := by
                refine (IH.1).mpr ⟨by simp at heven; omega, ?_⟩
                intro c hc
                exact hall c (by simp [hc])
              rw [hl] at hlok
              exact absurd hlok (by simp [Except.isOk, Except.toBool])
          · intro bs h
            simp [fromHexPairs, ha, hb, hl] at h
        · obtain ⟨hsa, hva, hvalt⟩ := from_hex_digit_ok ha
          obtain ⟨hsb, hvb, hvblt⟩ := from_hex_digit_ok hb
          have heq : fromHexPairs (a :: b :: l) = Except.ok ((vA * 16 ||| vB) :: r) := by
            simp [fromHexPairs, ha, hb, hl]
          constructor
          · constructor
            · intro _
              have hlprops := (IH.1).mp (by simp [hl, Except.isOk, Except.toBool])
              refine ⟨by simp; omega, ?_⟩
              intro c hc
              rcases List.mem_cons.mp hc with rfl | hc
              · exact hsa
              · rcases List.mem_cons.mp hc with rfl | hc
                · exact hsb
                · exact hlprops.2 c hc
            · intro _
              simp [heq, Except.isOk, Except.toBool]
          · intro bs h
            rw [heq] at h
            cases h
            obtain ⟨hrlen, hrval⟩ := IH.2 r hl
            constructor
            · simp [hrlen]
              omega
            · intro i hi
              match i with
              | 0 =>
                have g0 : (2 : Nat) * 0 = 0 := by norm_num
                have g1 : (2 : Nat) * 0 + 1 = 0 + 1 := by rw [g0]
                rw [g0, g1]
                simp only [List.getD_cons_zero, List.getD_cons_succ]
                rw [mul16_lor_eq_add hvblt, hva, hvb]
              | i + 1 =>
                have hi' : i < r.length := by
                  simp at hi
                  omega
                have hstep := hrval i hi'
                have e1 : 2 * (i + 1) = 2 * i + 1 + 1 := by ring
                rw [e1]
                simp only [List.getD_cons_succ]
                exact hstep

/-- **C6**: `from_hex` fails exactly on inputs of odd (byte) length or
containing a byte outside ASCII `[0-9a-fA-F]`; on every other input it returns
`ok` with exactly `len/2` bytes, the `i`-th being sixteen times the value of
the `2i`-th hex digit plus the value of the `2i+1`-st (case-insensitive).  The
function is pure, so it has no side effects. -/
theorem from_hex_correct (s : List Nat) :
    ((from_hex s).isOk = true ↔ s.length % 2 = 0 ∧ ∀ c ∈ s, specIsHexDigit c = true) ∧
    ∀ bs, from_hex s = Except.ok bs →
      bs.length = s.length / 2 ∧
      ∀ i, i < bs.length →
        bs.getD i 0 = 16 * specHexDigitVal (s.getD (2 * i) 0)
          + specHexDigitVal (s.getD (2 * i + 1) 0) := by
  by_cases he : s.length % 2 = 0
  · have hred : from_hex s = fromHexPairs s := by
      unfold from_hex
      rw [if_neg (by omega)]
    rw [hred]
    exact fromHexPairs_spec s
  · have hred : from_hex s =
        Except.error ("Hex string does not have an even number of digits") := by
      unfold from_hex
      rw [if_pos (by omega)]
    rw [hred]
    constructor
    · constructor
      · intro h
        exact absurd h (by simp [Except.isOk, Except.toBool])
      · rintro ⟨h1, -⟩
        exact absurd h1 he
    · intro bs h
      exact Except.noConfusion h

/-- Witness for `from_hex_correct` on the two-byte input `"4a"` (bytes
`[52, 97]`): decoding succeeds with the single byte `74 = 16*4 + 10`. -/
theorem from_hex_correct_witness :
    (from_hex [52, 97]).isOk = true ∧
    from_hex [52, 97] = Except.ok [74] ∧
    [74].length = ([52, 97] : List Nat).length / 2 ∧
    ([74] : List Nat).getD 0 0 = 16 * specHexDigitVal (([52, 97] : List Nat).getD 0 0)
      + specHexDigitVal (([52, 97] : List Nat).getD 1 0) := by
  refine ⟨(from_hex_correct [52, 97]).1.mpr (by decide), by decide, ?_, ?_⟩
  · exact ((from_hex_correct [52, 97]).2 [74] (by decide)).1
  · have h := ((from_hex_correct [52, 97]).2 [74] (by decide)).2 0 (by decide)
    simpa using h
